import Mathlib

/-! DiagROM parallel-port display firmware (`firmware/main.c`).

A shallow embedding of the ATtiny48/88 firmware: the segment table `c_digits`,
the timer-overflow handler `TIMER0_OVF_vect`, the register set-up done by `main`
and the body of its endless loop.  Registers and the two C locals are natural
numbers; every store into an 8-bit location is reduced modulo 256.  The table
read `pgm_read_byte(&c_digits[i])` is an `Option`: an index outside the table
has no defined result.
-/

namespace ParDisplay

/-! ## Bit names of the device header (`avr/io.h`, ATtiny48/88) -/

/-- The `_BV(bit)` helper of avr-libc: `1 << bit`. -/
def _BV (bit : Nat) : Nat := 1 <<< bit

def PINA0 : Nat := 0
def PINA1 : Nat := 1
def PINB5 : Nat := 5
def PORTA2 : Nat := 2
def PORTA3 : Nat := 3
def PORTB0 : Nat := 0
def PORTB1 : Nat := 1
def PORTB2 : Nat := 2
def PORTB3 : Nat := 3
def PORTB4 : Nat := 4
def PORTB5 : Nat := 5
def PORTC6 : Nat := 6
def PORTC7 : Nat := 7
def DDB0 : Nat := 0
def DDB1 : Nat := 1
def DDB5 : Nat := 5
def PRADC : Nat := 0
def PRSPI : Nat := 2
def PRTIM1 : Nat := 3
def PRTWI : Nat := 7
def TOIE0 : Nat := 0
def CS00 : Nat := 0
def CS01 : Nat := 1

/-! ## 8-bit arithmetic -/

/-- Truncation of a C `int` result stored into a `uint8_t` location. -/
def u8 (x : Nat) : Nat := x % 256

/-- The low byte of the C expression `~x` for a byte-sized `x`, the only part
of it that survives an `&` with an 8-bit register. -/
def not8 (x : Nat) : Nat := 255 - x % 256

/-- The C operator `!` on a `uint8_t`. -/
def lnot (x : Nat) : Nat := if x = 0 then 1 else 0

/-! ## PROGMEM data -/

/-- Digit segment definitions, 1 = segment ON, bit order `.GFEDCBA`. -/
def c_digits : List Nat := [
  0b00111111,   -- 0
  0b00000110,   -- 1
  0b01011011,   -- 2
  0b01001111,   -- 3
  0b01100110,   -- 4
  0b01101101,   -- 5
  0b01111101,   -- 6
  0b00000111,   -- 7
  0b01111111,   -- 8
  0b01101111,   -- 9
  0b01110111,   -- A
  0b01111100,   -- b
  0b01011000,   -- c
  0b01011110,   -- d
  0b01111001,   -- E
  0b01110001    -- F
]

/-- The read `pgm_read_byte(&table[i])`: defined only inside the table. -/
def pgm_read_byte (table : List Nat) (i : Nat) : Option Nat := table[i]?

/-! ## Machine state -/

/-- The levels read from the three input registers during one loop iteration. -/
structure Pins where
  PINA : Nat
  PINB : Nat
  PINC : Nat
deriving DecidableEq, Repr

/-- The two locals of `main` and the I/O registers the firmware writes. -/
structure Machine where
  state : Nat
  val : Nat
  PRR : Nat
  PORTA : Nat
  DDRA : Nat
  PORTB : Nat
  DDRB : Nat
  PORTC : Nat
  DDRC : Nat
  PORTD : Nat
  DDRD : Nat
  TIFR0 : Nat
  TCNT0 : Nat
  TIMSK0 : Nat
  TCCR0A : Nat
deriving DecidableEq, Repr

/-! ## Timer 0 -/

/-- One count of the 8-bit hardware up-counter behind `TCNT0` (device
behaviour, not firmware code): the new count, and whether the counter wrapped
and so raised the overflow interrupt. -/
def timer0_count (tcnt : Nat) : Nat × Bool :=
  ((tcnt + 1) % 256, decide ((tcnt + 1) % 256 = 0))

/-- The handler `ISR(TIMER0_OVF_vect)`.  With `_DEBUG` defined (`debug = true`)
it first writes `_BV(PINB5)` to `PINB` twice; on this device a 1 written to a
`PINB` bit toggles the same bit of `PORTB`. -/
def TIMER0_OVF_vect (debug : Bool) (m : Machine) : Machine :=
  let m :=
    if debug then
      let m := { m with PORTB := u8 (m.PORTB ^^^ _BV PINB5) }
      { m with PORTB := u8 (m.PORTB ^^^ _BV PINB5) }
    else m
  { m with TCNT0 := u8 255 }

/-! ## `main`: set-up -/

/-- The state in which `main` enters its loop: the initialisers of `state` and
`val` and the register writes before `for (;;)`.  `debug` selects the `_DEBUG`
variant of the port B set-up. -/
def startup (debug : Bool) : Machine :=
  { state := 0
    val := 0
    PRR := u8 (_BV PRTWI ||| _BV PRTIM1 ||| _BV PRSPI ||| _BV PRADC)
    PORTA := u8 (_BV PORTA2 ||| _BV PORTA3)
    DDRA := u8 0
    PORTB :=
      if debug then u8 (_BV PORTB2 ||| _BV PORTB3 ||| _BV PORTB4)
      else u8 (_BV PORTB2 ||| _BV PORTB3 ||| _BV PORTB4 ||| _BV PORTB5)
    DDRB :=
      if debug then u8 (_BV DDB0 ||| _BV DDB1 ||| _BV DDB5)
      else u8 (_BV DDB0 ||| _BV DDB1)
    PORTC := u8 (_BV PORTC6 ||| _BV PORTC7)
    DDRC := u8 0
    PORTD := u8 0
    DDRD := u8 0xFF
    TIFR0 := u8 0
    TCNT0 := u8 255
    TIMSK0 := u8 (_BV TOIE0)
    TCCR0A := u8 (_BV CS01 ||| _BV CS00) }

/-! ## `main`: the loop -/

/-- One pass through the body of `for (;;)`, as the list of machine states at
its program points: after the blanking write to `PORTB`, after the assignment to
`val` (first digit only), after the write to `PORTD`, after the enable write to
`PORTB`, and after `state = !state`, where the processor goes to sleep. -/
def loop_points (p : Pins) (m : Machine) : Option (List Machine) :=
  -- Turn off both digits
  let m1 := { m with PORTB := u8 (m.PORTB &&& not8 (_BV PORTB0 ||| _BV PORTB1)) }
  if m1.state = 0 then do
    -- read the parallel port value
    let m2 := { m1 with val := u8 ((p.PINB &&& 0xC0) ||| (p.PINC &&& 0x3F)) }
    -- Display first digit
    let digit ← pgm_read_byte c_digits (m2.val >>> 4)
    let digit := if p.PINA &&& _BV PINA0 ≠ 0 then u8 (digit ||| 0x80) else digit
    let m3 := { m2 with PORTD := digit }
    let m4 := { m3 with PORTB := u8 (m3.PORTB ||| _BV PORTB0) }
    -- Toggle digit to show
    let m5 := { m4 with state := lnot m4.state }
    pure [m1, m2, m3, m4, m5]
  else do
    -- Display second digit
    let digit ← pgm_read_byte c_digits (m1.val &&& 0x0F)
    let digit := if p.PINA &&& _BV PINA1 ≠ 0 then u8 (digit ||| 0x80) else digit
    let m3 := { m1 with PORTD := digit }
    let m4 := { m3 with PORTB := u8 (m3.PORTB ||| _BV PORTB1) }
    -- Toggle digit to show
    let m5 := { m4 with state := lnot m4.state }
    pure [m1, m3, m4, m5]

/-- One loop iteration: the state in which the processor goes to sleep. -/
def loop_iter (p : Pins) (m : Machine) : Option Machine :=
  (loop_points p m).bind List.getLast?

/-- One tick: a loop iteration, then the sleep that the timer overflow ends by
running its handler. -/
def tick (debug : Bool) (p : Pins) (m : Machine) : Option Machine :=
  (loop_iter p m).map (TIMER0_OVF_vect debug)

/-- The machine at the top of loop iteration `n` (counted from 0), when the
iterations before it read the pins `inp 0`, …, `inp (n - 1)`. -/
def run_from (debug : Bool) (inp : Nat → Pins) (m : Machine) : Nat → Option Machine
  | 0 => some m
  | n + 1 => (run_from debug inp m n).bind (tick debug (inp n))

/-- The machine at the top of iteration `n` of a run of `main`. -/
def run (debug : Bool) (inp : Nat → Pins) (n : Nat) : Option Machine :=
  run_from debug inp (startup debug) n

/-- The state in which iteration `n` of a run of `main` goes to sleep. -/
def asleep (debug : Bool) (inp : Nat → Pins) (n : Nat) : Option Machine :=
  (run debug inp n).bind (loop_iter (inp n))

/-- The byte on the eight data lines: D6-D7 on PB6-PB7, D0-D5 on PC0-PC5. -/
def data_lines (p : Pins) : Nat := u8 ((p.PINB &&& 0xC0) ||| (p.PINC &&& 0x3F))

/-! ## Derived observations -/

/-- Table entry `i`, with 0 outside the table. -/
def glyph (i : Nat) : Nat := c_digits.getD i 0

/-- The byte the loop writes to `PORTD` for table index `i` when the input
register of the status lines reads `status` and the line tested is `mask`. -/
def segments (i status mask : Nat) : Nat :=
  if status &&& mask ≠ 0 then u8 (glyph i ||| 0x80) else glyph i

/-- The digit-1 and digit-2 segment patterns, decimal point left out, written by
two consecutive iterations that read the pins `p1` and then `p2`. -/
def two_digits (debug : Bool) (p1 p2 : Pins) (m : Machine) : Option (Nat × Nat) := do
  let a ← loop_iter p1 m
  let b ← loop_iter p2 (TIMER0_OVF_vect debug a)
  pure (a.PORTD % 128, b.PORTD % 128)

/-! ## Reference glyphs -/

/-- The seven segments of one digit. -/
inductive Segment where
  | A | B | C | D | E | F | G
deriving DecidableEq, Repr

/-- Bit of a table entry that drives the segment: bit 0 = A through bit 6 = G. -/
def Segment.bit : Segment → Nat
  | .A => 0
  | .B => 1
  | .C => 2
  | .D => 3
  | .E => 4
  | .F => 5
  | .G => 6

/-- The glyph of each hex digit as the specification lists it, by lit segments:
0, 1, …, 9, A, b, c, d, E, F.  This table is written from the specification, not
from the firmware. -/
def reference_glyphs : List (List Segment) := [
  [.A, .B, .C, .D, .E, .F],        -- 0
  [.B, .C],                        -- 1
  [.A, .B, .D, .E, .G],            -- 2
  [.A, .B, .C, .D, .G],            -- 3
  [.B, .C, .F, .G],                -- 4
  [.A, .C, .D, .F, .G],            -- 5
  [.A, .C, .D, .E, .F, .G],        -- 6
  [.A, .B, .C],                    -- 7
  [.A, .B, .C, .D, .E, .F, .G],    -- 8
  [.A, .B, .C, .D, .F, .G],        -- 9
  [.A, .B, .C, .E, .F, .G],        -- A
  [.C, .D, .E, .F, .G],            -- b
  [.D, .E, .G],                    -- c
  [.B, .C, .D, .E, .G],            -- d
  [.A, .D, .E, .F, .G],            -- E
  [.A, .E, .F, .G]                 -- F
]

/-! ## Wiring -/

/-- Two pin readings agree on every wired input of the wiring comment: PA0
(BUSY), PA1 (PAPER OUT), PB6-PB7 (D6-D7) and PC0-PC5 (D0-D5). -/
def wired_agree (p q : Pins) : Prop :=
  p.PINA.testBit 0 = q.PINA.testBit 0 ∧ p.PINA.testBit 1 = q.PINA.testBit 1 ∧
  p.PINB.testBit 6 = q.PINB.testBit 6 ∧ p.PINB.testBit 7 = q.PINB.testBit 7 ∧
  ∀ k : Fin 6, p.PINC.testBit k.val = q.PINC.testBit k.val

instance (p q : Pins) : Decidable (wired_agree p q) := by
  unfold wired_agree
  infer_instance

/-! ## Lemmas: table and bit arithmetic -/

theorem c_digits_length : c_digits.length = 16 := rfl

theorem read_glyph {i : Nat} (h : i < 16) : pgm_read_byte c_digits i = some (glyph i) := by
  have h' : i < c_digits.length := h
  simp [pgm_read_byte, glyph, List.getD_eq_getElem?_getD, List.getElem?_eq_getElem h']

theorem glyph_lt (i : Nat) : glyph i < 128 := by
  by_cases h : i < 16
  · interval_cases i <;> decide
  · have h' : c_digits.length ≤ i := by rw [c_digits_length]; omega
    simp [glyph, List.getD_eq_getElem?_getD, List.getElem?_eq_none h']

theorem bv_eq (k : Nat) : _BV k = 2 ^ k := by simp [_BV, Nat.one_shiftLeft]

theorem and_bv_ne_zero (x k : Nat) : x &&& _BV k ≠ 0 ↔ x.testBit k = true := by
  rw [bv_eq, Nat.and_two_pow]
  have : 0 < 2 ^ k := Nat.pos_pow_of_pos k (by decide)
  cases x.testBit k <;> simp

theorem data_lines_lt (p : Pins) : data_lines p < 256 := Nat.mod_lt _ (by decide)

theorem hi_index_lt {v : Nat} (h : v < 256) : v >>> 4 < 16 := by
  rw [Nat.shiftRight_eq_div_pow]; omega

theorem lo_index_lt (v : Nat) : v &&& 0x0F < 16 :=
  Nat.and_lt_two_pow v (show 15 < 2 ^ 4 by decide)

theorem point_low {d : Nat} (h : d < 128) : u8 (d ||| 0x80) % 128 = d := by
  apply Nat.eq_of_testBit_eq
  intro i
  show ((d ||| 2 ^ 7) % 2 ^ 8 % 2 ^ 7).testBit i = d.testBit i
  simp only [Nat.testBit_mod_two_pow, Nat.testBit_or, Nat.testBit_two_pow]
  by_cases hi : i < 7
  · have h7 : ¬ 7 = i := by omega
    have h8 : i < 8 := by omega
    simp [hi, h7, h8]
  · have : d.testBit i = false :=
      Nat.testBit_lt_two_pow
        (lt_of_lt_of_le h (Nat.pow_le_pow_right (show 0 < 2 by decide) (show 7 ≤ i by omega)))
    simp [hi, this]

theorem point_bit {d : Nat} : (u8 (d ||| 0x80)).testBit 7 = true := by
  show ((d ||| 2 ^ 7) % 2 ^ 8).testBit 7 = true
  simp only [Nat.testBit_mod_two_pow, Nat.testBit_or, Nat.testBit_two_pow]
  simp

theorem segments_low (i status mask : Nat) : segments i status mask % 128 = glyph i := by
  unfold segments
  split
  · exact point_low (glyph_lt i)
  · exact Nat.mod_eq_of_lt (glyph_lt i)

theorem segments_bit (i status k : Nat) :
    (segments i status (_BV k)).testBit 7 = status.testBit k := by
  unfold segments
  by_cases h : status.testBit k = true
  · rw [if_pos ((and_bv_ne_zero status k).2 h), point_bit, h]
  · rw [if_neg (fun c => h ((and_bv_ne_zero status k).1 c))]
    rw [Nat.testBit_lt_two_pow (glyph_lt i)]
    simpa using h

/-- Bit `k` of `PORTB` after the blanking write. -/
theorem blank_bit (x k : Nat) :
    (u8 (x &&& not8 (_BV PORTB0 ||| _BV PORTB1))).testBit k
      = (decide (k < 8) && (x.testBit k && Nat.testBit 252 k)) := by
  show ((x &&& 252) % 2 ^ 8).testBit k = _
  simp only [Nat.testBit_mod_two_pow, Nat.testBit_and]

/-- Bit `k` of `PORTB` after the enable write of digit-enable bit `e`. -/
theorem enable_bit (x e k : Nat) :
    (u8 (u8 (x &&& not8 (_BV PORTB0 ||| _BV PORTB1)) ||| _BV e)).testBit k
      = (decide (k < 8) && ((x.testBit k && Nat.testBit 252 k) || decide (e = k))) := by
  rw [bv_eq e]
  show ((u8 (x &&& not8 (_BV PORTB0 ||| _BV PORTB1)) ||| 2 ^ e) % 2 ^ 8).testBit k = _
  simp only [Nat.testBit_mod_two_pow, Nat.testBit_or, Nat.testBit_two_pow, blank_bit]
  cases decide (k < 8) <;> simp

/-! ## Lemmas: one loop iteration -/

theorem loop_points_digit1 (p : Pins) (m : Machine) (h : m.state = 0) :
    loop_points p m = some
      [ { m with PORTB := u8 (m.PORTB &&& not8 (_BV PORTB0 ||| _BV PORTB1)) },
        { m with PORTB := u8 (m.PORTB &&& not8 (_BV PORTB0 ||| _BV PORTB1)),
                 val := data_lines p },
        { m with PORTB := u8 (m.PORTB &&& not8 (_BV PORTB0 ||| _BV PORTB1)),
                 val := data_lines p,
                 PORTD := segments (data_lines p >>> 4) p.PINA (_BV PINA0) },
        { m with PORTB := u8 (u8 (m.PORTB &&& not8 (_BV PORTB0 ||| _BV PORTB1)) ||| _BV PORTB0),
                 val := data_lines p,
                 PORTD := segments (data_lines p >>> 4) p.PINA (_BV PINA0) },
        { m with PORTB := u8 (u8 (m.PORTB &&& not8 (_BV PORTB0 ||| _BV PORTB1)) ||| _BV PORTB0),
                 val := data_lines p,
                 PORTD := segments (data_lines p >>> 4) p.PINA (_BV PINA0),
                 state := 1 } ] := by
  have hr := read_glyph (hi_index_lt (data_lines_lt p))
  unfold data_lines at hr
  simp only [loop_points, h, hr, if_true]
  rfl

theorem loop_points_digit2 (p : Pins) (m : Machine) (h : m.state ≠ 0) :
    loop_points p m = some
      [ { m with PORTB := u8 (m.PORTB &&& not8 (_BV PORTB0 ||| _BV PORTB1)) },
        { m with PORTB := u8 (m.PORTB &&& not8 (_BV PORTB0 ||| _BV PORTB1)),
                 PORTD := segments (m.val &&& 0x0F) p.PINA (_BV PINA1) },
        { m with PORTB := u8 (u8 (m.PORTB &&& not8 (_BV PORTB0 ||| _BV PORTB1)) ||| _BV PORTB1),
                 PORTD := segments (m.val &&& 0x0F) p.PINA (_BV PINA1) },
        { m with PORTB := u8 (u8 (m.PORTB &&& not8 (_BV PORTB0 ||| _BV PORTB1)) ||| _BV PORTB1),
                 PORTD := segments (m.val &&& 0x0F) p.PINA (_BV PINA1),
                 state := 0 } ] := by
  have hr := read_glyph (lo_index_lt m.val)
  simp only [loop_points, h, hr, if_false]
  simp [lnot, h, segments]

theorem loop_iter_digit1 (p : Pins) (m : Machine) (h : m.state = 0) :
    loop_iter p m = some
      { m with PORTB := u8 (u8 (m.PORTB &&& not8 (_BV PORTB0 ||| _BV PORTB1)) ||| _BV PORTB0),
               val := data_lines p,
               PORTD := segments (data_lines p >>> 4) p.PINA (_BV PINA0),
               state := 1 } := by
  rw [loop_iter, loop_points_digit1 p m h]
  rfl

theorem loop_iter_digit2 (p : Pins) (m : Machine) (h : m.state ≠ 0) :
    loop_iter p m = some
      { m with PORTB := u8 (u8 (m.PORTB &&& not8 (_BV PORTB0 ||| _BV PORTB1)) ||| _BV PORTB1),
               PORTD := segments (m.val &&& 0x0F) p.PINA (_BV PINA1),
               state := 0 } := by
  rw [loop_iter, loop_points_digit2 p m h]
  rfl

/-! ## Lemmas: the handler and runs -/

theorem isr_state (debug : Bool) (m : Machine) : (TIMER0_OVF_vect debug m).state = m.state := by
  cases debug <;> rfl

theorem isr_val (debug : Bool) (m : Machine) : (TIMER0_OVF_vect debug m).val = m.val := by
  cases debug <;> rfl

theorem isr_PORTD (debug : Bool) (m : Machine) : (TIMER0_OVF_vect debug m).PORTD = m.PORTD := by
  cases debug <;> rfl

/-- The handler leaves every bit of `PORTB` below bit 8 as it was. -/
theorem isr_PORTB_bit (debug : Bool) (m : Machine) (k : Nat) :
    (TIMER0_OVF_vect debug m).PORTB.testBit k
      = (if debug then decide (k < 8) && m.PORTB.testBit k else m.PORTB.testBit k) := by
  cases debug
  · rfl
  · show ((((m.PORTB ^^^ 2 ^ 5) % 2 ^ 8) ^^^ 2 ^ 5) % 2 ^ 8).testBit k = _
    simp only [Nat.testBit_mod_two_pow, Nat.testBit_xor, Nat.testBit_two_pow]
    cases decide (k < 8) <;> cases m.PORTB.testBit k <;> cases decide (5 = k) <;> rfl

/-- Every loop iteration returns, and flips the phase. -/
theorem loop_iter_total (p : Pins) (m : Machine) :
    ∃ a, loop_iter p m = some a ∧ a.state = lnot m.state := by
  by_cases h : m.state = 0
  · exact ⟨_, loop_iter_digit1 p m h, by simp [lnot, h]⟩
  · exact ⟨_, loop_iter_digit2 p m h, by simp [lnot, h]⟩

/-- A first-digit iteration: the sampled byte and the value left in `PORTD`. -/
theorem iter_digit1 (p : Pins) (m : Machine) (h : m.state = 0) :
    ∃ a, loop_iter p m = some a ∧ a.state = 1 ∧ a.val = data_lines p ∧
      a.PORTD = segments (data_lines p >>> 4) p.PINA (_BV PINA0) :=
  ⟨_, loop_iter_digit1 p m h, rfl, rfl, rfl⟩

/-- A second-digit iteration: the held byte and the value left in `PORTD`. -/
theorem iter_digit2 (p : Pins) (m : Machine) (h : m.state ≠ 0) :
    ∃ a, loop_iter p m = some a ∧ a.state = 0 ∧ a.val = m.val ∧
      a.PORTD = segments (m.val &&& 0x0F) p.PINA (_BV PINA1) :=
  ⟨_, loop_iter_digit2 p m h, rfl, rfl, rfl⟩

theorem run_from_succ (debug : Bool) (inp : Nat → Pins) (m m' : Machine) (n : Nat)
    (h : run_from debug inp m n = some m') :
    run_from debug inp m (n + 1) = tick debug (inp n) m' := by
  simp [run_from, h]

/-- From phase `DIGIT_1` a run reaches the top of every iteration `n`, in phase
`n % 2`. -/
theorem run_from_phase (debug : Bool) (inp : Nat → Pins) (m : Machine) (h : m.state = 0)
    (n : Nat) : ∃ m', run_from debug inp m n = some m' ∧ m'.state = n % 2 := by
  induction n with
  | zero => exact ⟨m, rfl, h⟩
  | succ n ih =>
    obtain ⟨m', hrun, hst⟩ := ih
    obtain ⟨a, ha, hs⟩ := loop_iter_total (inp n) m'
    refine ⟨TIMER0_OVF_vect debug a, ?_, ?_⟩
    · rw [run_from_succ debug inp m m' n hrun, tick, ha]; rfl
    · rw [isr_state, hs, hst]
      rcases Nat.mod_two_eq_zero_or_one n with h0 | h1
      · rw [h0]; simp [lnot]; omega
      · rw [h1]; simp [lnot]; omega

theorem t252_0 : Nat.testBit 252 0 = false := by decide
theorem t252_1 : Nat.testBit 252 1 = false := by decide

theorem blank_PORTB0 (x : Nat) :
    (u8 (x &&& not8 (_BV PORTB0 ||| _BV PORTB1))).testBit PORTB0 = false := by
  rw [blank_bit]; simp [PORTB0, t252_0]

theorem blank_PORTB1 (x : Nat) :
    (u8 (x &&& not8 (_BV PORTB0 ||| _BV PORTB1))).testBit PORTB1 = false := by
  rw [blank_bit]; simp [PORTB1, t252_1]

theorem enable0_PORTB0 (x : Nat) :
    (u8 (u8 (x &&& not8 (_BV PORTB0 ||| _BV PORTB1)) ||| _BV PORTB0)).testBit PORTB0 = true := by
  rw [enable_bit]; simp [PORTB0]

theorem enable0_PORTB1 (x : Nat) :
    (u8 (u8 (x &&& not8 (_BV PORTB0 ||| _BV PORTB1)) ||| _BV PORTB0)).testBit PORTB1 = false := by
  rw [enable_bit]; simp [PORTB0, PORTB1, t252_1]

theorem enable1_PORTB0 (x : Nat) :
    (u8 (u8 (x &&& not8 (_BV PORTB0 ||| _BV PORTB1)) ||| _BV PORTB1)).testBit PORTB0 = false := by
  rw [enable_bit]; simp [PORTB0, PORTB1, t252_0]

theorem enable1_PORTB1 (x : Nat) :
    (u8 (u8 (x &&& not8 (_BV PORTB0 ||| _BV PORTB1)) ||| _BV PORTB1)).testBit PORTB1 = true := by
  rw [enable_bit]; simp [PORTB1]

/-- After an iteration the enable bit of the digit just drawn is 1 and the
other one is 0. -/
theorem iter_enable (p : Pins) (m : Machine) :
    ∃ a, loop_iter p m = some a ∧
      a.PORTB.testBit PORTB0 = decide (m.state = 0) ∧
      a.PORTB.testBit PORTB1 = decide (m.state ≠ 0) := by
  by_cases h : m.state = 0
  · refine ⟨_, loop_iter_digit1 p m h, ?_, ?_⟩
    · simpa [h] using enable0_PORTB0 m.PORTB
    · simpa [h] using enable0_PORTB1 m.PORTB
  · refine ⟨_, loop_iter_digit2 p m h, ?_, ?_⟩
    · simpa [h] using enable1_PORTB0 m.PORTB
    · simpa [h] using enable1_PORTB1 m.PORTB

/-- At no program point of an iteration is the enable bit of the other digit 1. -/
theorem points_enable (p : Pins) (m : Machine) :
    ∃ pts, loop_points p m = some pts ∧ ∀ q ∈ pts,
      (m.state = 0 → q.PORTB.testBit PORTB1 = false) ∧
      (m.state ≠ 0 → q.PORTB.testBit PORTB0 = false) := by
  by_cases h : m.state = 0
  · refine ⟨_, loop_points_digit1 p m h, ?_⟩
    intro q hq
    refine ⟨fun _ => ?_, fun c => absurd h c⟩
    simp only [List.mem_cons, List.mem_singleton, List.not_mem_nil, or_false] at hq
    rcases hq with rfl | rfl | rfl | rfl | rfl
    · exact blank_PORTB1 m.PORTB
    · exact blank_PORTB1 m.PORTB
    · exact blank_PORTB1 m.PORTB
    · exact enable0_PORTB1 m.PORTB
    · exact enable0_PORTB1 m.PORTB
  · refine ⟨_, loop_points_digit2 p m h, ?_⟩
    intro q hq
    refine ⟨fun c => absurd c h, fun _ => ?_⟩
    simp only [List.mem_cons, List.mem_singleton, List.not_mem_nil, or_false] at hq
    rcases hq with rfl | rfl | rfl | rfl
    · exact blank_PORTB0 m.PORTB
    · exact blank_PORTB0 m.PORTB
    · exact enable1_PORTB0 m.PORTB
    · exact enable1_PORTB0 m.PORTB

/-- At the top of every iteration of a run of `main` the two enable bits are not
both 1. -/
theorem run_not_both (debug : Bool) (inp : Nat → Pins) (n : Nat) :
    ∃ m, run debug inp n = some m ∧
      ¬ (m.PORTB.testBit PORTB0 = true ∧ m.PORTB.testBit PORTB1 = true) := by
  induction n with
  | zero =>
    refine ⟨startup debug, rfl, ?_⟩
    cases debug <;> decide
  | succ n ih =>
    obtain ⟨m, hrun, -⟩ := ih
    obtain ⟨a, ha, h0, h1⟩ := iter_enable (inp n) m
    refine ⟨TIMER0_OVF_vect debug a, ?_, ?_⟩
    · rw [run, run_from_succ debug inp _ m n hrun, tick, ha]; rfl
    · rw [isr_PORTB_bit, isr_PORTB_bit, h0, h1]
      by_cases h : m.state = 0 <;> cases debug <;> simp [h]

/-! ## Lemmas: the table is injective -/

theorem glyph_injective {i j : Nat} (hi : i < 16) (hj : j < 16) (h : glyph i = glyph j) :
    i = j := by
  have key : ∀ a b : Fin 16, glyph a.val = glyph b.val → a = b := by decide
  exact congrArg Fin.val (key ⟨i, hi⟩ ⟨j, hj⟩ h)

/-- A byte is determined by its two table indices. -/
theorem nibbles_injective {v w : Nat} (hhi : v >>> 4 = w >>> 4)
    (hlo : v &&& 0x0F = w &&& 0x0F) : v = w := by
  have e : ∀ x : Nat, x &&& 0x0F = x % 16 := fun x => Nat.and_pow_two_sub_one_eq_mod x 4
  rw [e v, e w] at hlo
  rw [Nat.shiftRight_eq_div_pow, Nat.shiftRight_eq_div_pow] at hhi
  omega

theorem two_digits_eq (debug : Bool) (p1 p2 : Pins) (m : Machine) (h : m.state = 0) :
    two_digits debug p1 p2 m
      = some (glyph (data_lines p1 >>> 4), glyph (data_lines p1 &&& 0x0F)) := by
  obtain ⟨a, ha, has, hav, haD⟩ := iter_digit1 p1 m h
  have hst : (TIMER0_OVF_vect debug a).state ≠ 0 := by
    rw [isr_state, has]; exact Nat.one_ne_zero
  obtain ⟨b, hb, -, -, hbD⟩ := iter_digit2 p2 _ hst
  simp only [two_digits, ha, hb, Option.bind_eq_bind, Option.some_bind, Option.pure_def]
  rw [haD, hbD, segments_low, segments_low, isr_val, hav]

/-! ## Lemmas: scenarios -/

theorem segments_on {status k : Nat} (i : Nat) (h : status.testBit k = true) :
    segments i status (_BV k) = u8 (glyph i ||| 0x80) := by
  unfold segments
  rw [if_pos ((and_bv_ne_zero status k).2 h)]

theorem segments_off {status k : Nat} (i : Nat) (h : status.testBit k = false) :
    segments i status (_BV k) = glyph i := by
  unfold segments
  rw [if_neg (fun c => by rw [(and_bv_ne_zero status k).1 c] at h; exact Bool.noConfusion h)]

theorem data_lines_of {p : Pins} {hi lo : Nat} (hB : p.PINB &&& 0xC0 = hi)
    (hC : p.PINC &&& 0x3F = lo) : data_lines p = u8 (hi ||| lo) := by
  unfold data_lines
  rw [hB, hC]

/-- Two consecutive iterations from phase `DIGIT_1`, the handler in between:
what they leave in `PORTD` and in the two enable bits. -/
theorem two_iterations (debug : Bool) (p1 p2 : Pins) (m : Machine) (hm : m.state = 0) :
    ∃ a b, loop_iter p1 m = some a ∧ loop_iter p2 (TIMER0_OVF_vect debug a) = some b ∧
      a.PORTD = segments (data_lines p1 >>> 4) p1.PINA (_BV PINA0) ∧
      a.PORTB.testBit PORTB0 = true ∧ a.PORTB.testBit PORTB1 = false ∧
      b.PORTD = segments (data_lines p1 &&& 0x0F) p2.PINA (_BV PINA1) ∧
      b.PORTB.testBit PORTB0 = false ∧ b.PORTB.testBit PORTB1 = true := by
  obtain ⟨a, ha, has, hav, haD⟩ := iter_digit1 p1 m hm
  obtain ⟨a', ha', ha0, ha1⟩ := iter_enable p1 m
  obtain rfl : a = a' := Option.some.inj (ha.symm.trans ha')
  have hst : (TIMER0_OVF_vect debug a).state ≠ 0 := by
    rw [isr_state, has]; exact Nat.one_ne_zero
  obtain ⟨b, hb, -, -, hbD⟩ := iter_digit2 p2 _ hst
  obtain ⟨b', hb', hb0, hb1⟩ := iter_enable p2 (TIMER0_OVF_vect debug a)
  obtain rfl : b = b' := Option.some.inj (hb.symm.trans hb')
  refine ⟨a, b, ha, hb, haD, ?_, ?_, ?_, ?_, ?_⟩
  · simpa [hm] using ha0
  · simpa [hm] using ha1
  · rw [hbD, isr_val, hav]
  · simpa [hst] using hb0
  · simpa [hst] using hb1

/-! ## Lemmas: the data lines bit by bit -/

/-- Bit `k` of the sampled byte: `PINC` below bit 6, `PINB` at bits 6 and 7,
nothing above. -/
theorem data_lines_bit (p : Pins) (k : Nat) :
    (data_lines p).testBit k
      = ((p.PINB.testBit k && (decide (6 = k) || decide (7 = k)))
          || (decide (k < 6) && p.PINC.testBit k)) := by
  show (((p.PINB &&& (2 ^ 6 ||| 2 ^ 7)) ||| (p.PINC &&& (2 ^ 6 - 1))) % 2 ^ 8).testBit k = _
  simp only [Nat.and_pow_two_sub_one_eq_mod, Nat.testBit_mod_two_pow, Nat.testBit_or,
    Nat.testBit_and, Nat.testBit_two_pow]
  by_cases h6 : k < 6
  · have a : ¬ 6 = k := by omega
    have b : ¬ 7 = k := by omega
    have c : k < 8 := by omega
    simp [h6, a, b, c]
  · by_cases h8 : k < 8
    · simp [h6, h8]
    · have a : ¬ 6 = k := by omega
      have b : ¬ 7 = k := by omega
      simp [h6, h8, a, b]

/-- The sampled byte is the same for pin readings that agree on PB6, PB7 and
PC0-PC5. -/
theorem data_lines_congr {p q : Pins} (h6 : p.PINB.testBit 6 = q.PINB.testBit 6)
    (h7 : p.PINB.testBit 7 = q.PINB.testBit 7)
    (hC : ∀ k : Fin 6, p.PINC.testBit k.val = q.PINC.testBit k.val) :
    data_lines p = data_lines q := by
  apply Nat.eq_of_testBit_eq
  intro k
  rw [data_lines_bit, data_lines_bit]
  by_cases hk : k < 6
  · have a : ¬ 6 = k := by omega
    have b : ¬ 7 = k := by omega
    simp [hk, a, b, hC ⟨k, hk⟩]
  · by_cases e6 : 6 = k
    · subst e6; simp [h6]
    · by_cases e7 : 7 = k
      · subst e7; simp [h7]
      · simp [hk, e6, e7]

/-- The stored byte is the C expression itself: the truncation drops nothing. -/
theorem data_lines_eq (p : Pins) :
    data_lines p = (p.PINB &&& 0xC0) ||| (p.PINC &&& 0x3F) := by
  have hB : p.PINB &&& 0xC0 < 2 ^ 8 :=
    Nat.and_lt_two_pow p.PINB (show 0xC0 < 2 ^ 8 by decide)
  have hC : p.PINC &&& 0x3F < 2 ^ 8 :=
    Nat.and_lt_two_pow p.PINC (show 0x3F < 2 ^ 8 by decide)
  exact Nat.mod_eq_of_lt (Nat.or_lt_two_pow hB hC)

/-- Every byte is the reading of some pins. -/
theorem data_lines_surjective {v : Nat} (h : v < 256) : data_lines ⟨0, v, v⟩ = v := by
  apply Nat.eq_of_testBit_eq
  intro k
  rw [data_lines_bit]
  by_cases hk : k < 6
  · have a : ¬ 6 = k := by omega
    have b : ¬ 7 = k := by omega
    simp [hk, a, b]
  · by_cases e6 : 6 = k
    · subst e6; simp
    · by_cases e7 : 7 = k
      · subst e7; simp
      · have : v.testBit k = false :=
          Nat.testBit_lt_two_pow
            (lt_of_lt_of_le h (Nat.pow_le_pow_right (show 0 < 2 by decide)
              (show 8 ≤ k by omega)))
        simp [hk, e6, e7, this]

theorem segments_congr {s t k : Nat} (i : Nat) (h : s.testBit k = t.testBit k) :
    segments i s (_BV k) = segments i t (_BV k) := by
  cases hb : t.testBit k
  · rw [segments_off i (h.trans hb), segments_off i hb]
  · rw [segments_on i (h.trans hb), segments_on i hb]

/-- Pin readings that agree on the wired inputs drive the loop body alike. -/
theorem loop_points_congr {p q : Pins} (h : wired_agree p q) (m : Machine) :
    loop_points p m = loop_points q m := by
  obtain ⟨hA0, hA1, hB6, hB7, hC⟩ := h
  by_cases hs : m.state = 0
  · rw [loop_points_digit1 p m hs, loop_points_digit1 q m hs,
      data_lines_congr hB6 hB7 hC]
    rw [show segments (data_lines q >>> 4) p.PINA (_BV PINA0)
          = segments (data_lines q >>> 4) q.PINA (_BV PINA0) from segments_congr _ hA0]
  · rw [loop_points_digit2 p m hs, loop_points_digit2 q m hs]
    rw [show segments (m.val &&& 0x0F) p.PINA (_BV PINA1)
          = segments (m.val &&& 0x0F) q.PINA (_BV PINA1) from segments_congr _ hA1]

theorem tick_congr {p q : Pins} (h : wired_agree p q) (debug : Bool) (m : Machine) :
    tick debug p m = tick debug q m := by
  rw [tick, tick, loop_iter, loop_iter, loop_points_congr h]

/-! ## Lemmas: the order of the port writes -/

theorem t252_high (j : Fin 6) : Nat.testBit 252 (j.val + 2) = true := by
  revert j; decide

/-- The blanking write leaves bits 2-7 of `PORTB` as they were. -/
theorem blank_keeps (x : Nat) (j : Fin 6) :
    (u8 (x &&& not8 (_BV PORTB0 ||| _BV PORTB1))).testBit (j.val + 2)
      = x.testBit (j.val + 2) := by
  have hj : j.val + 2 < 8 := by omega
  rw [blank_bit, t252_high]
  simp [hj]

/-- The enable write of PB0 or PB1 leaves bits 2-7 of `PORTB` as they were. -/
theorem enable_keeps (x e : Nat) (he : e < 2) (j : Fin 6) :
    (u8 (u8 (x &&& not8 (_BV PORTB0 ||| _BV PORTB1)) ||| _BV e)).testBit (j.val + 2)
      = x.testBit (j.val + 2) := by
  have hj : j.val + 2 < 8 := by omega
  have hne : ¬ e = j.val + 2 := by omega
  rw [enable_bit, t252_high]
  simp [hj, hne]

/-- The program points of one iteration, in the order of the port writes: the
first point has both enable bits clear; a point with an enable bit set has the
bit of the phase being drawn, and already holds the byte and the segment value
with which the iteration ends; bits 2-7 of `PORTB` never change. -/
theorem points_order (p : Pins) (m : Machine) :
    ∃ pts a q0, loop_points p m = some pts ∧ loop_iter p m = some a ∧ a ∈ pts ∧
      pts.head? = some q0 ∧
      q0.PORTB.testBit PORTB0 = false ∧ q0.PORTB.testBit PORTB1 = false ∧
      ∀ q ∈ pts,
        (q.PORTB.testBit PORTB0 = true →
          m.state = 0 ∧ q.PORTD = a.PORTD ∧ q.val = a.val) ∧
        (q.PORTB.testBit PORTB1 = true →
          m.state ≠ 0 ∧ q.PORTD = a.PORTD ∧ q.val = a.val) ∧
        ∀ j : Fin 6, q.PORTB.testBit (j.val + 2) = m.PORTB.testBit (j.val + 2) := by
  have no0 : ∀ {P : Prop}, (u8 (m.PORTB &&& not8 (_BV PORTB0 ||| _BV PORTB1))).testBit PORTB0
      = true → P := fun h => by
    rw [blank_PORTB0] at h; exact Bool.noConfusion h
  have no1 : ∀ {P : Prop}, (u8 (m.PORTB &&& not8 (_BV PORTB0 ||| _BV PORTB1))).testBit PORTB1
      = true → P := fun h => by
    rw [blank_PORTB1] at h; exact Bool.noConfusion h
  have e01 : ∀ {P : Prop},
      (u8 (u8 (m.PORTB &&& not8 (_BV PORTB0 ||| _BV PORTB1)) ||| _BV PORTB0)).testBit PORTB1
        = true → P := fun h => by
    rw [enable0_PORTB1] at h; exact Bool.noConfusion h
  have e10 : ∀ {P : Prop},
      (u8 (u8 (m.PORTB &&& not8 (_BV PORTB0 ||| _BV PORTB1)) ||| _BV PORTB1)).testBit PORTB0
        = true → P := fun h => by
    rw [enable1_PORTB0] at h; exact Bool.noConfusion h
  by_cases hs : m.state = 0
  · refine ⟨_, _, _, loop_points_digit1 p m hs, loop_iter_digit1 p m hs, ?_, rfl,
      blank_PORTB0 m.PORTB, blank_PORTB1 m.PORTB, ?_⟩
    · simp
    · intro q hq
      simp only [List.mem_cons, List.mem_singleton, List.not_mem_nil, or_false] at hq
      rcases hq with rfl | rfl | rfl | rfl | rfl
      · exact ⟨fun h => no0 h, fun h => no1 h, blank_keeps m.PORTB⟩
      · exact ⟨fun h => no0 h, fun h => no1 h, blank_keeps m.PORTB⟩
      · exact ⟨fun h => no0 h, fun h => no1 h, blank_keeps m.PORTB⟩
      · exact ⟨fun _ => ⟨hs, rfl, rfl⟩, fun h => e01 h,
          enable_keeps m.PORTB PORTB0 (by decide)⟩
      · exact ⟨fun _ => ⟨hs, rfl, rfl⟩, fun h => e01 h,
          enable_keeps m.PORTB PORTB0 (by decide)⟩
  · refine ⟨_, _, _, loop_points_digit2 p m hs, loop_iter_digit2 p m hs, ?_, rfl,
      blank_PORTB0 m.PORTB, blank_PORTB1 m.PORTB, ?_⟩
    · simp
    · intro q hq
      simp only [List.mem_cons, List.mem_singleton, List.not_mem_nil, or_false] at hq
      rcases hq with rfl | rfl | rfl | rfl
      · exact ⟨fun h => no0 h, fun h => no1 h, blank_keeps m.PORTB⟩
      · exact ⟨fun h => no0 h, fun h => no1 h, blank_keeps m.PORTB⟩
      · exact ⟨fun h => e10 h, fun _ => ⟨hs, rfl, rfl⟩,
          enable_keeps m.PORTB PORTB1 (by decide)⟩
      · exact ⟨fun h => e10 h, fun _ => ⟨hs, rfl, rfl⟩,
          enable_keeps m.PORTB PORTB1 (by decide)⟩

/-- At every program point of an iteration, an enabled digit shows its own
nibble of the held byte. -/
theorem points_no_ghost (p : Pins) (m : Machine) :
    ∃ pts a, loop_points p m = some pts ∧ loop_iter p m = some a ∧ a ∈ pts ∧
      ∀ q ∈ pts,
        (q.PORTB.testBit PORTB0 = true → c_digits[q.val >>> 4]? = some (q.PORTD % 128)) ∧
        (q.PORTB.testBit PORTB1 = true →
          c_digits[q.val &&& 0x0F]? = some (q.PORTD % 128)) := by
  obtain ⟨pts, a, q0, hpts, ha, hmem, -, -, -, hq⟩ := points_order p m
  refine ⟨pts, a, hpts, ha, hmem, ?_⟩
  intro q hqm
  obtain ⟨h0, h1, -⟩ := hq q hqm
  constructor
  · intro hb
    obtain ⟨hs, hD, hv⟩ := h0 hb
    obtain ⟨a', ha', -, hav, haD⟩ := iter_digit1 p m hs
    obtain rfl : a = a' := Option.some.inj (ha.symm.trans ha')
    show pgm_read_byte c_digits _ = _
    rw [hv, hD, hav, haD, segments_low, read_glyph (hi_index_lt (data_lines_lt p))]
  · intro hb
    obtain ⟨hs, hD, hv⟩ := h1 hb
    obtain ⟨a', ha', -, hav, haD⟩ := iter_digit2 p m hs
    obtain rfl : a = a' := Option.some.inj (ha.symm.trans ha')
    show pgm_read_byte c_digits _ = _
    rw [hv, hD, hav, haD, segments_low, read_glyph (lo_index_lt m.val)]

/-- At the top of every iteration of a run of `main`, an enabled digit shows its
own nibble of the held byte. -/
theorem run_no_ghost (debug : Bool) (inp : Nat → Pins) (n : Nat) :
    ∃ m, run debug inp n = some m ∧
      (m.PORTB.testBit PORTB0 = true → c_digits[m.val >>> 4]? = some (m.PORTD % 128)) ∧
      (m.PORTB.testBit PORTB1 = true →
        c_digits[m.val &&& 0x0F]? = some (m.PORTD % 128)) := by
  induction n with
  | zero =>
    refine ⟨startup debug, rfl, ?_, ?_⟩
    · intro h; cases debug <;> exact absurd h (by decide)
    · intro h; cases debug <;> exact absurd h (by decide)
  | succ n ih =>
    obtain ⟨m, hrun, -⟩ := ih
    obtain ⟨pts, a, -, ha, hmem, hq⟩ := points_no_ghost (inp n) m
    obtain ⟨h0, h1⟩ := hq a hmem
    have hb : ∀ k, (TIMER0_OVF_vect debug a).PORTB.testBit k = true →
        a.PORTB.testBit k = true := by
      intro k hk
      rw [isr_PORTB_bit] at hk
      cases debug
      · simpa using hk
      · simp at hk; exact hk.2
    refine ⟨TIMER0_OVF_vect debug a, ?_, ?_, ?_⟩
    · rw [run, run_from_succ debug inp _ m n hrun, tick, ha]; rfl
    · intro h
      rw [isr_val, isr_PORTD]; exact h0 (hb _ h)
    · intro h
      rw [isr_val, isr_PORTD]; exact h1 (hb _ h)

/-- At the top of every iteration of a run of `main`, bits 2-7 of `PORTB` are
those written at start-up. -/
theorem run_keeps_PORTB (debug : Bool) (inp : Nat → Pins) (n : Nat) :
    ∃ m, run debug inp n = some m ∧
      ∀ j : Fin 6, m.PORTB.testBit (j.val + 2) = (startup debug).PORTB.testBit (j.val + 2) := by
  induction n with
  | zero => exact ⟨startup debug, rfl, fun _ => rfl⟩
  | succ n ih =>
    obtain ⟨m, hrun, hm⟩ := ih
    obtain ⟨pts, a, q0, -, ha, hmem, -, -, -, hq⟩ := points_order (inp n) m
    refine ⟨TIMER0_OVF_vect debug a, ?_, ?_⟩
    · rw [run, run_from_succ debug inp _ m n hrun, tick, ha]; rfl
    · intro j
      have hj : j.val + 2 < 8 := by omega
      rw [isr_PORTB_bit, ← hm j, ← (hq a hmem).2.2 j]
      cases debug <;> simp [hj]

/-! ## Claims -/

/-- C1. Sample-and-hold rendering over a run of `main`: for every input sequence
and every `k`, iterations `2k` and `2k+1` both return; the low 7 bits of the value
in `PORTD` when iteration `2k` goes to sleep are `c_digits[v >> 4]` and those of
iteration `2k+1` are `c_digits[v & 0x0F]`, where `v` is the byte on the data
lines at iteration `2k`, whatever the pins read at iteration `2k+1`. -/
theorem sample_and_hold (debug : Bool) (inp : Nat → Pins) (k : Nat) :
    ∃ a b, asleep debug inp (2 * k) = some a ∧ asleep debug inp (2 * k + 1) = some b ∧
      c_digits[data_lines (inp (2 * k)) >>> 4]? = some (a.PORTD % 128) ∧
      c_digits[data_lines (inp (2 * k)) &&& 0x0F]? = some (b.PORTD % 128) := by
  obtain ⟨m0, hrun, hst⟩ := run_from_phase debug inp (startup debug) rfl (2 * k)
  have hst0 : m0.state = 0 := by rw [hst]; omega
  obtain ⟨a, ha, has, hav, haD⟩ := iter_digit1 (inp (2 * k)) m0 hst0
  have hrun1 : run debug inp (2 * k + 1) = some (TIMER0_OVF_vect debug a) := by
    rw [run, run_from_succ debug inp _ m0 (2 * k) hrun, tick, ha]; rfl
  have hst1 : (TIMER0_OVF_vect debug a).state ≠ 0 := by
    rw [isr_state, has]; exact Nat.one_ne_zero
  obtain ⟨b, hb, -, -, hbD⟩ := iter_digit2 (inp (2 * k + 1)) _ hst1
  refine ⟨a, b, ?_, ?_, ?_, ?_⟩
  · rw [asleep, run, hrun]; exact ha
  · rw [asleep, hrun1]; exact hb
  · show pgm_read_byte c_digits _ = _
    rw [read_glyph (hi_index_lt (data_lines_lt _)), haD, segments_low]
  · show pgm_read_byte c_digits _ = _
    rw [read_glyph (lo_index_lt _), hbD, segments_low, isr_val, hav]

/-- C2. Break-before-make: in a run of `main`, for every input sequence and every
iteration `n`, the iteration is reached and returns, and neither at its top (the
start-up state, or the sleep that the handler ended) nor at any of its program
points (after the blanking write, after the segment write, after the enable
write, when going to sleep) are the digit-enable bits PB0 and PB1 of `PORTB`
both 1. -/
theorem break_before_make (debug : Bool) (inp : Nat → Pins) (n : Nat) :
    ∃ m pts, run debug inp n = some m ∧ loop_points (inp n) m = some pts ∧
      ∀ q ∈ m :: pts,
        ¬ (q.PORTB.testBit PORTB0 = true ∧ q.PORTB.testBit PORTB1 = true) := by
  obtain ⟨m, hrun, hm⟩ := run_not_both debug inp n
  obtain ⟨pts, hpts, hq⟩ := points_enable (inp n) m
  refine ⟨m, pts, hrun, hpts, ?_⟩
  intro q hmem
  rcases List.mem_cons.1 hmem with rfl | hmem
  · exact hm
  · rintro ⟨h0, h1⟩
    by_cases h : m.state = 0
    · rw [(hq q hmem).1 h] at h1; exact Bool.false_ne_true h1
    · rw [(hq q hmem).2 h] at h0; exact Bool.false_ne_true h0

/-- C3. Strict phase alternation: from any machine in phase `DIGIT_1`
(`state = 0`), for every input sequence and every `n`, the run reaches the top of
iteration `n` with `state = n % 2` (`DIGIT_1` for even `n`, `DIGIT_2` for odd
`n`, so `DIGIT_1` again after two iterations), iteration `n` returns, and at all
of its program points `state` is 0 or 1. -/
theorem phase_alternation (debug : Bool) (inp : Nat → Pins) (m : Machine)
    (h : m.state = 0) (n : Nat) :
    ∃ m' pts, run_from debug inp m n = some m' ∧ m'.state = n % 2 ∧
      loop_points (inp n) m' = some pts ∧ ∀ q ∈ pts, q.state = 0 ∨ q.state = 1 := by
  obtain ⟨m', hrun, hst⟩ := run_from_phase debug inp m h n
  by_cases h0 : m'.state = 0
  · refine ⟨m', _, hrun, hst, loop_points_digit1 (inp n) m' h0, ?_⟩
    intro q hq
    simp only [List.mem_cons, List.mem_singleton, List.not_mem_nil, or_false] at hq
    rcases hq with rfl | rfl | rfl | rfl | rfl
    · exact Or.inl h0
    · exact Or.inl h0
    · exact Or.inl h0
    · exact Or.inl h0
    · exact Or.inr rfl
  · have h1 : m'.state = 1 := by omega
    refine ⟨m', _, hrun, hst, loop_points_digit2 (inp n) m' h0, ?_⟩
    intro q hq
    simp only [List.mem_cons, List.mem_singleton, List.not_mem_nil, or_false] at hq
    rcases hq with rfl | rfl | rfl | rfl
    · exact Or.inr h1
    · exact Or.inr h1
    · exact Or.inr h1
    · exact Or.inl rfl

/-- Witness of C3: two iterations after start-up the phase is `DIGIT_1` again. -/
theorem phase_alternation_witness :
    (startup false).state = 0 ∧
    ∃ m' pts, run_from false (fun _ => ⟨1, 0x80, 0x25⟩) (startup false) 2 = some m' ∧
      m'.state = 2 % 2 ∧
      loop_points ⟨1, 0x80, 0x25⟩ m' = some pts ∧
      ∀ q ∈ pts, q.state = 0 ∨ q.state = 1 :=
  ⟨rfl, phase_alternation false (fun _ => ⟨1, 0x80, 0x25⟩) (startup false) rfl 2⟩

/-- C4. Decimal point: for every machine state (so every held byte) and every
pin reading, the iteration returns, and bit 7 of the value it leaves in `PORTD`
equals bit 0 of `PINA` (BUSY) in a `DIGIT_1` iteration and bit 1 of `PINA`
(PAPER-OUT) in a `DIGIT_2` iteration, so it depends on no other input; every
table entry has bit 7 clear. -/
theorem decimal_point (p : Pins) (m : Machine) :
    (∃ a, loop_iter p m = some a ∧
      a.PORTD.testBit 7 = p.PINA.testBit (if m.state = 0 then PINA0 else PINA1)) ∧
    ∀ d ∈ c_digits, d.testBit 7 = false := by
  refine ⟨?_, by decide⟩
  by_cases h : m.state = 0
  · obtain ⟨a, ha, -, -, hD⟩ := iter_digit1 p m h
    exact ⟨a, ha, by rw [hD, segments_bit, if_pos h]⟩
  · obtain ⟨a, ha, -, -, hD⟩ := iter_digit2 p m h
    exact ⟨a, ha, by rw [hD, segments_bit, if_neg h]⟩

/-- C5. The segment table equals the reference glyphs: `c_digits` has exactly 16
entries, and for every hex digit `n` and every bit position `k`, bit `k` of
`c_digits[n]` is 1 exactly when the reference glyph of `n` has a segment whose
bit (A = 0, …, G = 6) is `k`. -/
theorem table_matches_reference :
    c_digits.length = 16 ∧
    ∀ n : Fin 16, ∃ d g, c_digits[n.val]? = some d ∧ reference_glyphs[n.val]? = some g ∧
      ∀ k : Nat, d.testBit k = true ↔ ∃ s ∈ g, Segment.bit s = k := by
  refine ⟨rfl, ?_⟩
  have low : ∀ n : Fin 16, ∀ k : Fin 7,
      (glyph n.val).testBit k.val = true ↔
        ∃ s ∈ reference_glyphs.getD n.val [], Segment.bit s = k.val := by
    decide
  have bit_lt : ∀ s : Segment, Segment.bit s < 7 := by
    intro s; cases s <;> decide
  have ref : ∀ n : Fin 16, reference_glyphs[n.val]? = some (reference_glyphs.getD n.val []) := by
    decide
  intro n
  refine ⟨glyph n.val, reference_glyphs.getD n.val [], read_glyph n.isLt, ref n, ?_⟩
  intro k
  by_cases hk : k < 7
  · exact low n ⟨k, hk⟩
  · have hfalse : (glyph n.val).testBit k = false :=
      Nat.testBit_lt_two_pow
        (lt_of_lt_of_le (glyph_lt n.val)
          (Nat.pow_le_pow_right (show 0 < 2 by decide) (show 7 ≤ k by omega)))
    constructor
    · intro h; rw [hfalse] at h; exact absurd h Bool.false_ne_true
    · rintro ⟨s, -, hs⟩
      have := bit_lt s
      omega

/-- C6. No two hex digits collide: the table is injective on the indices 0..15
(so `b` differs from `8` and `d` from `0`), and two runs of two iterations from
phase `DIGIT_1` whose first iterations read different bytes from the data lines
both return and leave different pairs of (digit-1 pattern, digit-2 pattern),
decimal point left out. -/
theorem no_collision (debug : Bool) (p1 p2 q1 q2 : Pins) (m m' : Machine)
    (hm : m.state = 0) (hm' : m'.state = 0) (hne : data_lines p1 ≠ data_lines q1) :
    (∀ i j : Fin 16, c_digits[i.val]? = c_digits[j.val]? → i = j) ∧
    c_digits[0xB]? ≠ c_digits[8]? ∧ c_digits[0xD]? ≠ c_digits[0]? ∧
    ∃ x y, two_digits debug p1 p2 m = some x ∧ two_digits debug q1 q2 m' = some y ∧
      x ≠ y := by
  refine ⟨by decide, by decide, by decide, _, _, two_digits_eq debug p1 p2 m hm,
    two_digits_eq debug q1 q2 m' hm', ?_⟩
  intro h
  have h1 := congrArg Prod.fst h
  have h2 := congrArg Prod.snd h
  exact hne (nibbles_injective
    (glyph_injective (hi_index_lt (data_lines_lt p1)) (hi_index_lt (data_lines_lt q1)) h1)
    (glyph_injective (lo_index_lt _) (lo_index_lt _) h2))

/-- Witness of C6: the bytes 0xB0 and 0x80, then 0xFF on the second tick. -/
theorem no_collision_witness :
    (startup false).state = 0 ∧
    data_lines ⟨0, 0x80, 0x30⟩ ≠ data_lines ⟨0, 0x80, 0x00⟩ ∧
    ((∀ i j : Fin 16, c_digits[i.val]? = c_digits[j.val]? → i = j) ∧
     c_digits[0xB]? ≠ c_digits[8]? ∧ c_digits[0xD]? ≠ c_digits[0]? ∧
     ∃ x y, two_digits false ⟨0, 0x80, 0x30⟩ ⟨0, 0xC0, 0x3F⟩ (startup false) = some x ∧
       two_digits false ⟨0, 0x80, 0x00⟩ ⟨0, 0xC0, 0x3F⟩ (startup false) = some y ∧
       x ≠ y) :=
  ⟨rfl, by decide,
    no_collision false ⟨0, 0x80, 0x30⟩ ⟨0, 0xC0, 0x3F⟩ ⟨0, 0x80, 0x00⟩ ⟨0, 0xC0, 0x3F⟩
      (startup false) (startup false) rfl rfl (by decide)⟩

/-- C7. When the processor goes to sleep, after an iteration from any state and
for any pin reading, exactly one digit-enable bit of `PORTB` is 1: PB0 is 1 and
PB1 is 0 after a `DIGIT_1` iteration, PB1 is 1 and PB0 is 0 after a `DIGIT_2`
iteration; the timer handler that ends the sleep leaves both bits as they are. -/
theorem one_digit_enabled (debug : Bool) (p : Pins) (m : Machine) :
    ∃ a, loop_iter p m = some a ∧
      (if m.state = 0
        then a.PORTB.testBit PORTB0 = true ∧ a.PORTB.testBit PORTB1 = false
        else a.PORTB.testBit PORTB1 = true ∧ a.PORTB.testBit PORTB0 = false) ∧
      (TIMER0_OVF_vect debug a).PORTB.testBit PORTB0 = a.PORTB.testBit PORTB0 ∧
      (TIMER0_OVF_vect debug a).PORTB.testBit PORTB1 = a.PORTB.testBit PORTB1 := by
  obtain ⟨a, ha, h0, h1⟩ := iter_enable p m
  refine ⟨a, ha, ?_, ?_, ?_⟩
  · by_cases h : m.state = 0
    · rw [if_pos h]; simpa [h] using And.intro h0 h1
    · rw [if_neg h]; simpa [h] using And.intro h1 h0
  · rw [isr_PORTB_bit]; cases debug <;> simp [PORTB0]
  · rw [isr_PORTB_bit]; cases debug <;> simp [PORTB1]

/-- C8. The table lookup is total: the table has 16 entries; for every 8-bit
held byte `val` the indices `val >> 4` and `val & 0x0F` are below 16 and both
reads succeed; and for every machine state and pin reading the loop body
returns, so the failing branch of the read is never taken. -/
theorem lookup_total (val : Nat) (h : val < 256) :
    c_digits.length = 16 ∧
    val >>> 4 < c_digits.length ∧ val &&& 0x0F < c_digits.length ∧
    (∃ d, pgm_read_byte c_digits (val >>> 4) = some d) ∧
    (∃ d, pgm_read_byte c_digits (val &&& 0x0F) = some d) ∧
    ∀ (p : Pins) (m : Machine), loop_points p m ≠ none ∧ loop_iter p m ≠ none := by
  refine ⟨rfl, hi_index_lt h, lo_index_lt val, ⟨_, read_glyph (hi_index_lt h)⟩,
    ⟨_, read_glyph (lo_index_lt val)⟩, ?_⟩
  intro p m
  obtain ⟨a, ha, -⟩ := loop_iter_total p m
  constructor
  · intro hn
    rw [loop_iter, hn] at ha
    exact Option.noConfusion ha
  · rw [ha]; exact Option.some_ne_none a

/-- Witness of C8: the byte 0xA5. -/
theorem lookup_total_witness :
    0xA5 < 256 ∧
    (c_digits.length = 16 ∧
     0xA5 >>> 4 < c_digits.length ∧ 0xA5 &&& 0x0F < c_digits.length ∧
     (∃ d, pgm_read_byte c_digits (0xA5 >>> 4) = some d) ∧
     (∃ d, pgm_read_byte c_digits (0xA5 &&& 0x0F) = some d) ∧
     ∀ (p : Pins) (m : Machine), loop_points p m ≠ none ∧ loop_iter p m ≠ none) :=
  ⟨by decide, lookup_total 0xA5 (by decide)⟩

/-- C9. The held byte is written only in `DIGIT_1` iterations: a `DIGIT_2`
iteration, for every held byte and pin reading, returns with `val` unchanged at
every program point, and two iterations from the same state whose pin readings
agree on `PINA` leave the same value in `PORTD`, whatever `PINB` and `PINC`
read. -/
theorem held_byte_frame (p q : Pins) (m : Machine) (h : m.state ≠ 0)
    (hA : p.PINA = q.PINA) :
    ∃ a b pts, loop_iter p m = some a ∧ loop_iter q m = some b ∧
      loop_points p m = some pts ∧ (∀ x ∈ pts, x.val = m.val) ∧
      a.val = m.val ∧ a.PORTD = b.PORTD := by
  obtain ⟨a, ha, -, hav, haD⟩ := iter_digit2 p m h
  obtain ⟨b, hb, -, -, hbD⟩ := iter_digit2 q m h
  refine ⟨a, b, _, ha, hb, loop_points_digit2 p m h, ?_, hav, ?_⟩
  · intro x hx
    simp only [List.mem_cons, List.mem_singleton, List.not_mem_nil, or_false] at hx
    rcases hx with rfl | rfl | rfl | rfl <;> rfl
  · rw [haD, hbD, hA]

/-- Witness of C9: held byte 0xA5 in phase `DIGIT_2`, data lines reading 0x00
and 0xFF. -/
theorem held_byte_frame_witness :
    ({ startup false with state := 1, val := 0xA5 } : Machine).state ≠ 0 ∧
    (⟨1, 0x00, 0x00⟩ : Pins).PINA = (⟨1, 0xC0, 0x3F⟩ : Pins).PINA ∧
    ∃ a b pts,
      loop_iter ⟨1, 0x00, 0x00⟩ { startup false with state := 1, val := 0xA5 } = some a ∧
      loop_iter ⟨1, 0xC0, 0x3F⟩ { startup false with state := 1, val := 0xA5 } = some b ∧
      loop_points ⟨1, 0x00, 0x00⟩ { startup false with state := 1, val := 0xA5 } = some pts ∧
      (∀ x ∈ pts, x.val = ({ startup false with state := 1, val := 0xA5 } : Machine).val) ∧
      a.val = ({ startup false with state := 1, val := 0xA5 } : Machine).val ∧
      a.PORTD = b.PORTD :=
  ⟨by decide, rfl,
    held_byte_frame ⟨1, 0x00, 0x00⟩ ⟨1, 0xC0, 0x3F⟩
      { startup false with state := 1, val := 0xA5 } (by decide) rfl⟩

/-- C10. Tick handler re-arm: for every prior machine state (so every prior
`TCNT0`) the handler leaves `TCNT0 = 255`, in both builds; one further count of
the timer from there wraps to 0 and raises the overflow; and in the non-debug
build the handler changes no other register or variable, so not `state`, `val`,
`PORTB` or `PORTD`. -/
theorem handler_rearms (m : Machine) :
    (TIMER0_OVF_vect false m).TCNT0 = 255 ∧
    (TIMER0_OVF_vect true m).TCNT0 = 255 ∧
    timer0_count (TIMER0_OVF_vect false m).TCNT0 = (0, true) ∧
    TIMER0_OVF_vect false m = { m with TCNT0 := 255 } ∧
    (TIMER0_OVF_vect false m).state = m.state ∧
    (TIMER0_OVF_vect false m).val = m.val ∧
    (TIMER0_OVF_vect false m).PORTB = m.PORTB ∧
    (TIMER0_OVF_vect false m).PORTD = m.PORTD :=
  ⟨rfl, rfl, show timer0_count 255 = (0, true) by decide, rfl, rfl, rfl, rfl, rfl⟩

/-- C11. Scenario 0xA5: from any machine in phase `DIGIT_1`, when the first
iteration reads 0xA5 from the data lines (`PINB & 0xC0 = 0x80`,
`PINC & 0x3F = 0x25`) with BUSY = 1 and the second reads PAPER-OUT = 0, the
first iteration writes 0xF7 (glyph `A` plus the decimal point) and leaves digit
1 alone enabled, and the second writes 0x6D (glyph `5`, no point) and leaves
digit 2 alone enabled. -/
theorem scenario_A5 (debug : Bool) (p1 p2 : Pins) (m : Machine) (hm : m.state = 0)
    (hB : p1.PINB &&& 0xC0 = 0x80) (hC : p1.PINC &&& 0x3F = 0x25)
    (hbusy : p1.PINA.testBit PINA0 = true) (hpout : p2.PINA.testBit PINA1 = false) :
    ∃ a b, loop_iter p1 m = some a ∧ loop_iter p2 (TIMER0_OVF_vect debug a) = some b ∧
      a.PORTD = 0xF7 ∧ a.PORTB.testBit PORTB0 = true ∧ a.PORTB.testBit PORTB1 = false ∧
      b.PORTD = 0x6D ∧ b.PORTB.testBit PORTB0 = false ∧ b.PORTB.testBit PORTB1 = true := by
  obtain ⟨a, b, ha, hb, haD, ha0, ha1, hbD, hb0, hb1⟩ := two_iterations debug p1 p2 m hm
  refine ⟨a, b, ha, hb, ?_, ha0, ha1, ?_, hb0, hb1⟩
  · rw [haD, data_lines_of hB hC, segments_on _ hbusy]; decide
  · rw [hbD, data_lines_of hB hC, segments_off _ hpout]; decide

/-- Witness of C11: the run from start-up with BUSY high and PAPER-OUT low on
both ticks. -/
theorem scenario_A5_witness :
    (startup false).state = 0 ∧
    (⟨0x01, 0x80, 0x25⟩ : Pins).PINB &&& 0xC0 = 0x80 ∧
    (⟨0x01, 0x80, 0x25⟩ : Pins).PINC &&& 0x3F = 0x25 ∧
    (⟨0x01, 0x80, 0x25⟩ : Pins).PINA.testBit PINA0 = true ∧
    (⟨0x01, 0x80, 0x25⟩ : Pins).PINA.testBit PINA1 = false ∧
    ∃ a b, loop_iter ⟨0x01, 0x80, 0x25⟩ (startup false) = some a ∧
      loop_iter ⟨0x01, 0x80, 0x25⟩ (TIMER0_OVF_vect false a) = some b ∧
      a.PORTD = 0xF7 ∧ a.PORTB.testBit PORTB0 = true ∧ a.PORTB.testBit PORTB1 = false ∧
      b.PORTD = 0x6D ∧ b.PORTB.testBit PORTB0 = false ∧ b.PORTB.testBit PORTB1 = true :=
  ⟨rfl, by decide, by decide, by decide, by decide,
    scenario_A5 false ⟨0x01, 0x80, 0x25⟩ ⟨0x01, 0x80, 0x25⟩ (startup false) rfl
      (by decide) (by decide) (by decide) (by decide)⟩

/-- C12. Scenario 0x00: from any machine in phase `DIGIT_1`, when the first
iteration reads 0x00 from the data lines with BUSY = 0 and the second reads
PAPER-OUT = 1, the first iteration writes 0x3F (glyph `0`, no point) with digit 1
alone enabled and the second writes 0xBF (glyph `0` plus the decimal point) with
digit 2 alone enabled. -/
theorem scenario_00 (debug : Bool) (p1 p2 : Pins) (m : Machine) (hm : m.state = 0)
    (hB : p1.PINB &&& 0xC0 = 0x00) (hC : p1.PINC &&& 0x3F = 0x00)
    (hbusy : p1.PINA.testBit PINA0 = false) (hpout : p2.PINA.testBit PINA1 = true) :
    ∃ a b, loop_iter p1 m = some a ∧ loop_iter p2 (TIMER0_OVF_vect debug a) = some b ∧
      a.PORTD = 0x3F ∧ a.PORTB.testBit PORTB0 = true ∧ a.PORTB.testBit PORTB1 = false ∧
      b.PORTD = 0xBF ∧ b.PORTB.testBit PORTB0 = false ∧ b.PORTB.testBit PORTB1 = true := by
  obtain ⟨a, b, ha, hb, haD, ha0, ha1, hbD, hb0, hb1⟩ := two_iterations debug p1 p2 m hm
  refine ⟨a, b, ha, hb, ?_, ha0, ha1, ?_, hb0, hb1⟩
  · rw [haD, data_lines_of hB hC, segments_off _ hbusy]; decide
  · rw [hbD, data_lines_of hB hC, segments_on _ hpout]; decide

/-- Witness of C12: the run from start-up with BUSY low and PAPER-OUT high on
both ticks. -/
theorem scenario_00_witness :
    (startup false).state = 0 ∧
    (⟨0x02, 0x00, 0x00⟩ : Pins).PINB &&& 0xC0 = 0x00 ∧
    (⟨0x02, 0x00, 0x00⟩ : Pins).PINC &&& 0x3F = 0x00 ∧
    (⟨0x02, 0x00, 0x00⟩ : Pins).PINA.testBit PINA0 = false ∧
    (⟨0x02, 0x00, 0x00⟩ : Pins).PINA.testBit PINA1 = true ∧
    ∃ a b, loop_iter ⟨0x02, 0x00, 0x00⟩ (startup false) = some a ∧
      loop_iter ⟨0x02, 0x00, 0x00⟩ (TIMER0_OVF_vect false a) = some b ∧
      a.PORTD = 0x3F ∧ a.PORTB.testBit PORTB0 = true ∧ a.PORTB.testBit PORTB1 = false ∧
      b.PORTD = 0xBF ∧ b.PORTB.testBit PORTB0 = false ∧ b.PORTB.testBit PORTB1 = true :=
  ⟨rfl, by decide, by decide, by decide, by decide,
    scenario_00 false ⟨0x02, 0x00, 0x00⟩ ⟨0x02, 0x00, 0x00⟩ (startup false) rfl
      (by decide) (by decide) (by decide) (by decide)⟩

/-- C13. Scenario 0xFF: from any machine in phase `DIGIT_1`, when the first
iteration reads 0xFF from the data lines (`PINB & 0xC0 = 0xC0`,
`PINC & 0x3F = 0x3F`) with BUSY = 0 and the second reads PAPER-OUT = 0, both
iterations write 0x71 (glyph `F`, bit 7 clear), the first with digit 1 alone
enabled and the second with digit 2 alone enabled. -/
theorem scenario_FF (debug : Bool) (p1 p2 : Pins) (m : Machine) (hm : m.state = 0)
    (hB : p1.PINB &&& 0xC0 = 0xC0) (hC : p1.PINC &&& 0x3F = 0x3F)
    (hbusy : p1.PINA.testBit PINA0 = false) (hpout : p2.PINA.testBit PINA1 = false) :
    ∃ a b, loop_iter p1 m = some a ∧ loop_iter p2 (TIMER0_OVF_vect debug a) = some b ∧
      a.PORTD = 0x71 ∧ a.PORTD.testBit 7 = false ∧
      a.PORTB.testBit PORTB0 = true ∧ a.PORTB.testBit PORTB1 = false ∧
      b.PORTD = 0x71 ∧ b.PORTD.testBit 7 = false ∧
      b.PORTB.testBit PORTB0 = false ∧ b.PORTB.testBit PORTB1 = true := by
  obtain ⟨a, b, ha, hb, haD, ha0, ha1, hbD, hb0, hb1⟩ := two_iterations debug p1 p2 m hm
  have hA : a.PORTD = 0x71 := by
    rw [haD, data_lines_of hB hC, segments_off _ hbusy]; decide
  have hBv : b.PORTD = 0x71 := by
    rw [hbD, data_lines_of hB hC, segments_off _ hpout]; decide
  refine ⟨a, b, ha, hb, hA, ?_, ha0, ha1, hBv, ?_, hb0, hb1⟩
  · rw [hA]; decide
  · rw [hBv]; decide

/-- Witness of C13: the run from start-up with both status lines low on both
ticks. -/
theorem scenario_FF_witness :
    (startup false).state = 0 ∧
    (⟨0x00, 0xC0, 0x3F⟩ : Pins).PINB &&& 0xC0 = 0xC0 ∧
    (⟨0x00, 0xC0, 0x3F⟩ : Pins).PINC &&& 0x3F = 0x3F ∧
    (⟨0x00, 0xC0, 0x3F⟩ : Pins).PINA.testBit PINA0 = false ∧
    (⟨0x00, 0xC0, 0x3F⟩ : Pins).PINA.testBit PINA1 = false ∧
    ∃ a b, loop_iter ⟨0x00, 0xC0, 0x3F⟩ (startup false) = some a ∧
      loop_iter ⟨0x00, 0xC0, 0x3F⟩ (TIMER0_OVF_vect false a) = some b ∧
      a.PORTD = 0x71 ∧ a.PORTD.testBit 7 = false ∧
      a.PORTB.testBit PORTB0 = true ∧ a.PORTB.testBit PORTB1 = false ∧
      b.PORTD = 0x71 ∧ b.PORTD.testBit 7 = false ∧
      b.PORTB.testBit PORTB0 = false ∧ b.PORTB.testBit PORTB1 = true :=
  ⟨rfl, by decide, by decide, by decide, by decide,
    scenario_FF false ⟨0x00, 0xC0, 0x3F⟩ ⟨0x00, 0xC0, 0x3F⟩ (startup false) rfl
      (by decide) (by decide) (by decide) (by decide)⟩

/-- C14. Start-up configuration of the non-debug build: `DDRA = 0`,
`DDRB = 0x03`, `DDRC = 0`, `DDRD = 0xFF`, `PORTA = 0x0C`, `PORTB = 0x3C`,
`PORTC = 0xC0`, `PORTD = 0`; so PA0, PA1, PB6, PB7 and PC0-PC5 are inputs (direction
bit 0) without pull-up (port bit 0), PB0, PB1 and PD0-PD7 are outputs (direction
bit 1), and both digit enables and all eight segment outputs start low. -/
theorem startup_wiring :
    (startup false).DDRA = 0 ∧ (startup false).DDRB = 0x03 ∧
    (startup false).DDRC = 0 ∧ (startup false).DDRD = 0xFF ∧
    (startup false).PORTA = 0x0C ∧ (startup false).PORTB = 0x3C ∧
    (startup false).PORTC = 0xC0 ∧ (startup false).PORTD = 0 ∧
    -- inputs
    (startup false).DDRA.testBit 0 = false ∧ (startup false).DDRA.testBit 1 = false ∧
    (startup false).DDRB.testBit 6 = false ∧ (startup false).DDRB.testBit 7 = false ∧
    (∀ k : Fin 6, (startup false).DDRC.testBit k.val = false) ∧
    -- outputs
    (startup false).DDRB.testBit 0 = true ∧ (startup false).DDRB.testBit 1 = true ∧
    (∀ k : Fin 8, (startup false).DDRD.testBit k.val = true) ∧
    -- no pull-up on the sampled lines
    (startup false).PORTA.testBit 0 = false ∧ (startup false).PORTA.testBit 1 = false ∧
    (startup false).PORTB.testBit 6 = false ∧ (startup false).PORTB.testBit 7 = false ∧
    (∀ k : Fin 6, (startup false).PORTC.testBit k.val = false) ∧
    -- display blank
    (startup false).PORTB.testBit PORTB0 = false ∧
    (startup false).PORTB.testBit PORTB1 = false ∧
    (∀ k : Fin 8, (startup false).PORTD.testBit k.val = false) := by
  decide

/-- C15. Sampled byte composition: a `DIGIT_1` iteration, for every reading of
the pins, returns with `val = (PINB & 0xC0) | (PINC & 0x3F)`, an 8-bit value
whose bits 0-5 are bits 0-5 of `PINC` and whose bits 6-7 are bits 6-7 of `PINB`;
a reading that agrees on those eight bits gives the same byte, whatever PB0-PB5
and PC6-PC7 read; and every byte value below 256 is the result of some
reading. -/
theorem sampled_byte (p : Pins) (m : Machine) (h : m.state = 0) :
    ∃ a, loop_iter p m = some a ∧
      a.val = (p.PINB &&& 0xC0) ||| (p.PINC &&& 0x3F) ∧ a.val < 256 ∧
      (∀ k : Fin 6, a.val.testBit k.val = p.PINC.testBit k.val) ∧
      a.val.testBit 6 = p.PINB.testBit 6 ∧ a.val.testBit 7 = p.PINB.testBit 7 ∧
      (∀ q : Pins, q.PINB.testBit 6 = p.PINB.testBit 6 →
        q.PINB.testBit 7 = p.PINB.testBit 7 →
        (∀ k : Fin 6, q.PINC.testBit k.val = p.PINC.testBit k.val) →
        ∃ b, loop_iter q m = some b ∧ b.val = a.val) ∧
      ∀ v : Nat, v < 256 → ∃ q b, loop_iter q m = some b ∧ b.val = v := by
  obtain ⟨a, ha, -, hav, -⟩ := iter_digit1 p m h
  refine ⟨a, ha, ?_, ?_, ?_, ?_, ?_, ?_, ?_⟩
  · rw [hav, data_lines_eq]
  · rw [hav]; exact data_lines_lt p
  · intro k
    have a6 : ¬ 6 = k.val := by omega
    have a7 : ¬ 7 = k.val := by omega
    rw [hav, data_lines_bit]
    simp [k.isLt, a6, a7]
  · rw [hav, data_lines_bit]; simp
  · rw [hav, data_lines_bit]; simp
  · intro q h6 h7 hC
    obtain ⟨b, hb, -, hbv, -⟩ := iter_digit1 q m h
    exact ⟨b, hb, by rw [hbv, hav, data_lines_congr h6 h7 hC]⟩
  · intro v hv
    obtain ⟨b, hb, -, hbv, -⟩ := iter_digit1 ⟨0, v, v⟩ m h
    exact ⟨_, b, hb, by rw [hbv, data_lines_surjective hv]⟩

/-- Witness of C15: the first iteration after start-up, reading 0xA5 with all
unwired pins of ports B and C high. -/
theorem sampled_byte_witness :
    (startup false).state = 0 ∧
    ∃ a, loop_iter ⟨0x01, 0xBF, 0xE5⟩ (startup false) = some a ∧
      a.val = ((⟨0x01, 0xBF, 0xE5⟩ : Pins).PINB &&& 0xC0)
        ||| ((⟨0x01, 0xBF, 0xE5⟩ : Pins).PINC &&& 0x3F) ∧ a.val < 256 ∧
      (∀ k : Fin 6, a.val.testBit k.val = (⟨0x01, 0xBF, 0xE5⟩ : Pins).PINC.testBit k.val) ∧
      a.val.testBit 6 = (⟨0x01, 0xBF, 0xE5⟩ : Pins).PINB.testBit 6 ∧
      a.val.testBit 7 = (⟨0x01, 0xBF, 0xE5⟩ : Pins).PINB.testBit 7 ∧
      (∀ q : Pins, q.PINB.testBit 6 = (⟨0x01, 0xBF, 0xE5⟩ : Pins).PINB.testBit 6 →
        q.PINB.testBit 7 = (⟨0x01, 0xBF, 0xE5⟩ : Pins).PINB.testBit 7 →
        (∀ k : Fin 6, q.PINC.testBit k.val = (⟨0x01, 0xBF, 0xE5⟩ : Pins).PINC.testBit k.val) →
        ∃ b, loop_iter q (startup false) = some b ∧ b.val = a.val) ∧
      ∀ v : Nat, v < 256 → ∃ q b, loop_iter q (startup false) = some b ∧ b.val = v :=
  ⟨rfl, sampled_byte ⟨0x01, 0xBF, 0xE5⟩ (startup false) rfl⟩

/-- C16. No ghosting across the changeover: in a run of `main`, for every input
sequence and every iteration `n`, at the top of the iteration and at each of its
program points, whenever PB0 is 1 the low 7 bits of `PORTD` are
`c_digits[val >> 4]`, and whenever PB1 is 1 they are `c_digits[val & 0x0F]`,
`val` being the held byte at that point.  The writes come in the order blank,
segments, enable: the first program point has both enable bits clear, and a
point with an enable bit set already holds the segment value and the byte with
which the iteration ends. -/
theorem no_ghosting (debug : Bool) (inp : Nat → Pins) (n : Nat) :
    ∃ m pts a q0, run debug inp n = some m ∧ loop_points (inp n) m = some pts ∧
      loop_iter (inp n) m = some a ∧
      (∀ q ∈ m :: pts,
        (q.PORTB.testBit PORTB0 = true → c_digits[q.val >>> 4]? = some (q.PORTD % 128)) ∧
        (q.PORTB.testBit PORTB1 = true →
          c_digits[q.val &&& 0x0F]? = some (q.PORTD % 128))) ∧
      pts.head? = some q0 ∧
      q0.PORTB.testBit PORTB0 = false ∧ q0.PORTB.testBit PORTB1 = false ∧
      ∀ q ∈ pts, (q.PORTB.testBit PORTB0 = true ∨ q.PORTB.testBit PORTB1 = true) →
        q.PORTD = a.PORTD ∧ q.val = a.val := by
  obtain ⟨m, hrun, hm0, hm1⟩ := run_no_ghost debug inp n
  obtain ⟨pts, a, hpts, ha, -, hq⟩ := points_no_ghost (inp n) m
  obtain ⟨pts', a', q0, hpts', ha', -, hhead, h00, h01, hord⟩ := points_order (inp n) m
  obtain rfl : pts = pts' := Option.some.inj (hpts.symm.trans hpts')
  obtain rfl : a = a' := Option.some.inj (ha.symm.trans ha')
  refine ⟨m, pts, a, q0, hrun, hpts, ha, ?_, hhead, h00, h01, ?_⟩
  · intro q hmem
    rcases List.mem_cons.1 hmem with rfl | hmem
    · exact ⟨hm0, hm1⟩
    · exact hq q hmem
  · intro q hmem hb
    rcases hb with hb | hb
    · exact ((hord q hmem).1 hb).2
    · exact ((hord q hmem).2.1 hb).2

/-- C17. The loop preserves the port-B configuration: for every prior machine
state (so every `PORTB` value and phase) and every pin reading, bits 2-7 of
`PORTB` at every program point of one iteration are those before it; and in a
run of `main`, at the top and at every program point of every iteration, bits
2-7 of `PORTB` are those written at start-up, which in the non-debug build are 1
on PB2-PB5 and 0 on PB6-PB7. -/
theorem portb_config_kept (p : Pins) (m : Machine) (debug : Bool) (inp : Nat → Pins)
    (n : Nat) :
    (∃ pts a, loop_points p m = some pts ∧ loop_iter p m = some a ∧
      (∀ q ∈ pts, ∀ j : Fin 6, q.PORTB.testBit (j.val + 2) = m.PORTB.testBit (j.val + 2)) ∧
      ∀ j : Fin 6, a.PORTB.testBit (j.val + 2) = m.PORTB.testBit (j.val + 2)) ∧
    (∃ x pts, run debug inp n = some x ∧ loop_points (inp n) x = some pts ∧
      ∀ q ∈ x :: pts, ∀ j : Fin 6,
        q.PORTB.testBit (j.val + 2) = (startup debug).PORTB.testBit (j.val + 2)) ∧
    (∀ j : Fin 4, (startup false).PORTB.testBit (j.val + 2) = true) ∧
    (startup false).PORTB.testBit 6 = false ∧ (startup false).PORTB.testBit 7 = false := by
  refine ⟨?_, ?_, by decide, by decide, by decide⟩
  · obtain ⟨pts, a, q0, hpts, ha, hmem, -, -, -, hq⟩ := points_order p m
    exact ⟨pts, a, hpts, ha, fun q hqm => (hq q hqm).2.2, (hq a hmem).2.2⟩
  · obtain ⟨x, hrun, hx⟩ := run_keeps_PORTB debug inp n
    obtain ⟨pts, a, q0, hpts, -, -, -, -, -, hq⟩ := points_order (inp n) x
    refine ⟨x, pts, hrun, hpts, ?_⟩
    intro q hmem j
    rcases List.mem_cons.1 hmem with rfl | hmem
    · exact hx j
    · rw [(hq q hmem).2.2 j]; exact hx j

/-- C18. Unwired pins cannot influence the display: two runs from the same
machine state whose pin readings agree at every tick on PA0, PA1, PB6, PB7 and
PC0-PC5 reach the same state at the top of every iteration `n`, pass through the
same states at every program point of it, and go to sleep in the same state, so
with the same `PORTD`, digit-enable bits, phase and held byte. -/
theorem unwired_pins_ignored (debug : Bool) (inp inp' : Nat → Pins) (m : Machine)
    (h : ∀ i, wired_agree (inp i) (inp' i)) (n : Nat) :
    ∃ x pts a, run_from debug inp m n = some x ∧ run_from debug inp' m n = some x ∧
      loop_points (inp n) x = some pts ∧ loop_points (inp' n) x = some pts ∧
      loop_iter (inp n) x = some a ∧ loop_iter (inp' n) x = some a := by
  have hrun : ∀ k, ∃ x, run_from debug inp m k = some x ∧
      run_from debug inp' m k = some x := by
    intro k
    induction k with
    | zero => exact ⟨m, rfl, rfl⟩
    | succ k ih =>
      obtain ⟨x, h1, h2⟩ := ih
      obtain ⟨a, ha, -⟩ := loop_iter_total (inp k) x
      refine ⟨TIMER0_OVF_vect debug a, ?_, ?_⟩
      · rw [run_from_succ debug inp m x k h1, tick, ha]; rfl
      · rw [run_from_succ debug inp' m x k h2, ← tick_congr (h k), tick, ha]; rfl
  obtain ⟨x, h1, h2⟩ := hrun n
  obtain ⟨pts, a, q0, hpts, ha, -⟩ := points_order (inp n) x
  refine ⟨x, pts, a, h1, h2, hpts, ?_, ha, ?_⟩
  · rw [← loop_points_congr (h n)]; exact hpts
  · rw [loop_iter, ← loop_points_congr (h n)]; exact ha

/-- Witness of C18: readings of 0xA5 with BUSY high, with the unwired pins low
in one run and high in the other. -/
theorem unwired_pins_ignored_witness :
    wired_agree ⟨0x01, 0x80, 0x25⟩ ⟨0xFD, 0xBF, 0xE5⟩ ∧
    ∃ x pts a,
      run_from false (fun _ => ⟨0x01, 0x80, 0x25⟩) (startup false) 3 = some x ∧
      run_from false (fun _ => ⟨0xFD, 0xBF, 0xE5⟩) (startup false) 3 = some x ∧
      loop_points ⟨0x01, 0x80, 0x25⟩ x = some pts ∧
      loop_points ⟨0xFD, 0xBF, 0xE5⟩ x = some pts ∧
      loop_iter ⟨0x01, 0x80, 0x25⟩ x = some a ∧
      loop_iter ⟨0xFD, 0xBF, 0xE5⟩ x = some a :=
  ⟨by decide,
    unwired_pins_ignored false (fun _ => ⟨0x01, 0x80, 0x25⟩) (fun _ => ⟨0xFD, 0xBF, 0xE5⟩)
      (startup false)
      (fun _ => (by decide : wired_agree ⟨0x01, 0x80, 0x25⟩ ⟨0xFD, 0xBF, 0xE5⟩)) 3⟩

end ParDisplay
